import Mathlib

/-!
Verification of the schema-tolerant extraction scripts (scipt.py, extract.py).

The Python scripts process JSON values.  We embed JSON shallowly as the
inductive `Json` below (numbers as `Int`: no claim depends on float
behaviour), and translate each Python function into a Lean function over
it.  Python's `set` of harvested strings is modelled as the list of strings
the traversal adds, in visit order and possibly with repetitions; every
consumer in the source reads the set only through membership
(`sorted(...)` / set comprehensions), and our theorems do the same.
-/

inductive Json where
  | null : Json
  | bool : Bool → Json
  | num : Int → Json
  | str : String → Json
  | arr : List Json → Json
  | obj : List (String × Json) → Json

/-- Python dictionary lookup on our association-list model (JSON objects
have unique keys, so first-match lookup agrees with `dict` access). -/
def lookupJ : List (String × Json) → String → Option Json
  | [], _ => none
  | (k, v) :: kvs, key => if k = key then some v else lookupJ kvs key

theorem lookupJ_mem {kvs : List (String × Json)} {key : String} {v : Json}
    (h : lookupJ kvs key = some v) : (key, v) ∈ kvs := by
  induction kvs with
  | nil => simp [lookupJ] at h
  | cons kv rest ih =>
    obtain ⟨k, w⟩ := kv
    by_cases hk : k = key
    · subst hk
      simp [lookupJ] at h
      simp [h]
    · simp [lookupJ, hk] at h
      exact List.mem_cons_of_mem _ (ih h)

theorem sizeOf_lookupJ {kvs : List (String × Json)} {key : String} {v : Json}
    (h : lookupJ kvs key = some v) : sizeOf v < sizeOf kvs := by
  have hm := List.sizeOf_lt_of_mem (lookupJ_mem h)
  simp at hm
  omega

/-- Whitespace class used by Python's `str.strip()` and `str.split()`
(ASCII whitespace; the claims do not exercise Unicode whitespace). -/
def isSpace (c : Char) : Bool :=
  c = ' ' || c = '\t' || c = '\n' || c = '\r' || c = '\x0b' || c = '\x0c'

/-- Python `s.strip()` on the character list. -/
def pyStripL (cs : List Char) : List Char :=
  List.rdropWhile isSpace (List.dropWhile isSpace cs)

/-- Python `s.strip()`. -/
def pyStrip (s : String) : String := String.mk (pyStripL s.data)

/-- Accumulator for Python `s.split()` (split on whitespace runs,
no empty words). -/
def pyWordsAux : List Char → List Char → List String
  | [], acc => if acc.isEmpty then [] else [String.mk acc.reverse]
  | c :: cs, acc =>
    if isSpace c then
      if acc.isEmpty then pyWordsAux cs [] else String.mk acc.reverse :: pyWordsAux cs []
    else pyWordsAux cs (c :: acc)

/-- Python `s.split()` with no arguments. -/
def pyWords (s : String) : List String := pyWordsAux s.data []

/-- Source `normalize` (scipt.py line 190; the same expression is inlined
at line 67): `" ".join(s.split()).strip()`.  Renamed `normalizeWs` because
Mathlib already declares `normalize`. -/
def normalizeWs (s : String) : String :=
  pyStrip (String.intercalate " " (pyWords s))

/-- Single-quote character, used by the Python `repr` of strings. -/
def squote : String := String.singleton (Char.ofNat 39)

mutual
/-- Python `repr` of a JSON value, as used by `str` on containers.  String
escaping inside `repr` is not modelled (no theorem depends on it; the only
concrete uses are on quote-free values). -/
def pyRepr : Json → String
  | .null => "None"
  | .bool true => "True"
  | .bool false => "False"
  | .num n => toString n
  | .str s => squote ++ s ++ squote
  | .arr xs => "[" ++ pyReprList xs ++ "]"
  | .obj kvs => "\x7b" ++ pyReprObj kvs ++ "\x7d"

def pyReprList : List Json → String
  | [] => ""
  | [x] => pyRepr x
  | x :: y :: xs => pyRepr x ++ ", " ++ pyReprList (y :: xs)

def pyReprObj : List (String × Json) → String
  | [] => ""
  | [kv] => squote ++ kv.1 ++ squote ++ ": " ++ pyRepr kv.2
  | kv :: kv2 :: kvs => squote ++ kv.1 ++ squote ++ ": " ++ pyRepr kv.2 ++ ", " ++ pyReprObj (kv2 :: kvs)
end

/-- Python `str(v)`: identity on strings, `repr`-style otherwise. -/
def pyStr : Json → String
  | .str s => s
  | v => pyRepr v

/-- Python truthiness of a JSON value. -/
def jsonFalsy : Json → Bool
  | .null => true
  | .bool b => !b
  | .num n => n = 0
  | .str s => s = ""
  | .arr xs => xs.isEmpty
  | .obj kvs => kvs.isEmpty

/-- Python `isinstance(v, (dict, list, str))`. -/
def isWalkable : Json → Bool
  | .str _ => true
  | .arr _ => true
  | .obj _ => true
  | _ => false

/-- Leaf-ish host keys probed by both harvesters (scipt.py lines 51, 173). -/
def leafKeys : List String :=
  ["fqdn", "hostname", "host", "domain", "destination", "destination_fqdn"]

/-- Container keys probed by `harvest_hosts` (scipt.py line 54). -/
def containerKeysHH : List String := ["destinations", "resources", "domains"]

/-- Container keys probed by `to_host_set` (scipt.py line 177). -/
def containerKeysTHS : List String :=
  ["destinations", "resources", "connectors", "apps", "domains"]

mutual
/-- Embedding of the inner `walk` of `harvest_hosts` (scipt.py lines
39-58) and `harvest` of `to_host_set` (lines 161-183), parametrised by the
leaf-key and container-key lists (the two functions differ only there).
The Python mutable set `out` is modelled by returning, in visit order, the
list of strings added; repetitions are possible and the set is read off as
the list's membership. -/
def hwalk (lk ck : List String) : Json → List String
  | .null => []
  | .bool _ => []
  | .num _ => []
  | .str s => if pyStrip s = "" then [] else [pyStrip s]
  | .arr xs => hwalkList lk ck xs
  | .obj kvs => hwalkKeys lk ck lk kvs ++ hwalkKeys lk ck ck kvs ++ hwalkVals lk ck kvs
termination_by v => (sizeOf v, 0)
decreasing_by
  all_goals apply Prod.Lex.left
  all_goals simp
  all_goals try omega

/-- The `for x in v: walk(x)` loop over a JSON sequence. -/
def hwalkList (lk ck : List String) : List Json → List String
  | [] => []
  | x :: xs => hwalk lk ck x ++ hwalkList lk ck xs
termination_by xs => (sizeOf xs, 0)
decreasing_by
  all_goals apply Prod.Lex.left
  all_goals simp
  all_goals try omega

/-- The `for k in (...): if k in v: walk(v[k])` loops over a fixed key
list. -/
def hwalkKeys (lk ck : List String) : List String → List (String × Json) → List String
  | [], _ => []
  | k :: ks, kvs =>
    (match h : lookupJ kvs k with
     | some v => hwalk lk ck v
     | none => []) ++ hwalkKeys lk ck ks kvs
termination_by ks kvs => (sizeOf kvs, sizeOf ks)
decreasing_by
  · exact Prod.Lex.left _ _ (sizeOf_lookupJ h)
  · exact Prod.Lex.right _ (by simp)

/-- The catch-all `for vv in v.values(): if isinstance(vv, (dict, list,
str)): walk(vv)` loop. -/
def hwalkVals (lk ck : List String) : List (String × Json) → List String
  | [] => []
  | (k, v) :: kvs =>
    (if isWalkable v then hwalk lk ck v else []) ++ hwalkVals lk ck kvs
termination_by kvs => (sizeOf kvs, 0)
decreasing_by
  all_goals apply Prod.Lex.left
  all_goals simp
  all_goals try omega
end

/-- Source `harvest_hosts` (scipt.py lines 32-60), as the list of strings
added to its result set. -/
def harvest_hosts (v : Json) : List String := hwalk leafKeys containerKeysHH v

/-- Source `to_host_set` (scipt.py lines 154-186), as the list of strings
added to its result set. -/
def to_host_set (v : Json) : List String := hwalk leafKeys containerKeysTHS v

mutual
/-- Claim-side description of the harvest (claim C10): the set of stripped,
non-whitespace-only strings reachable from a value by descending into
sequence elements and mapping values. -/
def specReachableStrings : Json → List String
  | .null => []
  | .bool _ => []
  | .num _ => []
  | .str s => if pyStrip s = "" then [] else [pyStrip s]
  | .arr xs => specReachList xs
  | .obj kvs => specReachVals kvs
termination_by v => sizeOf v
decreasing_by all_goals (simp; try omega)

/-- Reachable strings of the elements of a sequence. -/
def specReachList : List Json → List String
  | [] => []
  | x :: xs => specReachableStrings x ++ specReachList xs
termination_by xs => sizeOf xs
decreasing_by all_goals (simp; try omega)

/-- Reachable strings of the values of a mapping. -/
def specReachVals : List (String × Json) → List String
  | [] => []
  | (_, v) :: kvs => specReachableStrings v ++ specReachVals kvs
termination_by kvs => sizeOf kvs
decreasing_by all_goals (simp; try omega)
end

/-- Well-known container keys probed by `extract_items` (scipt.py line 22)
and by the page loop of `extract_apps` (scipt.py line 139): both use the
order data, items, result, private_apps, applications. -/
def containerKeys : List String :=
  ["data", "items", "result", "private_apps", "applications"]

/-- Container keys probed by `extract_apps` in extract.py (line 21); note
the different order: applications third, result last. -/
def containerKeysXY : List String :=
  ["data", "items", "applications", "private_apps", "result"]

/-- The `for key in (...)` probe shared by all three locators: the first
key whose value is a list wins (`payload.get(key)` / `key in page and
isinstance(page[key], list)` are equivalent on mappings). -/
def firstKeyList : List String → List (String × Json) → Option (List Json)
  | [], _ => none
  | k :: ks, kvs =>
    match lookupJ kvs k with
    | some (.arr xs) => some xs
    | _ => firstKeyList ks kvs

/-- The fallback scan of scipt.py (lines 27-29 and 145-148): the first
value that is a non-empty list whose first element is a mapping. -/
def firstListOfDicts : List (String × Json) → Option (List Json)
  | [] => none
  | (_, v) :: rest =>
    match v with
    | .arr (.obj o :: xs) => some (.obj o :: xs)
    | _ => firstListOfDicts rest

/-- Source `extract_items` (scipt.py lines 15-30). -/
def extract_items : Json → List Json
  | .arr xs => xs
  | .obj kvs =>
    (match firstKeyList containerKeys kvs with
     | some xs => xs
     | none => (firstListOfDicts kvs).getD [])
  | _ => []

/-- The per-page locate step of `extract_apps` (scipt.py lines 135-148):
the value of the local variable `arr` after the page has been examined. -/
def locatePage : Json → Option (List Json)
  | .arr xs => some xs
  | .obj kvs =>
    (match firstKeyList containerKeys kvs with
     | some xs => some xs
     | none => firstListOfDicts kvs)
  | _ => none

/-- Source `extract_apps` (scipt.py lines 124-151); `if arr:
candidates.extend(arr)` extends by nothing exactly when `arr` is `None` or
the empty list, so it is the flat concatenation of the located lists. -/
def extract_apps (data_pages : List Json) : List Json :=
  data_pages.foldr (fun page acc => ((locatePage page).getD []) ++ acc) []

/-- The locate step of extract.py's `extract_apps` (lines 17-32): same
shape, but its fallback `for v in data.values(): if isinstance(v, list):
items.extend(v)` concatenates every list value. -/
def locateXY : Json → List Json
  | .arr xs => xs
  | .obj kvs =>
    (match firstKeyList containerKeysXY kvs with
     | some xs => xs
     | none => kvs.foldr (fun kv acc =>
         (match kv.2 with
          | .arr xs => xs
          | _ => []) ++ acc) [])
  | _ => []

/-- The shared shape of the four `for k in (...): if <cond>: <win>; break`
probes of `row_from_app` (both variants): the condition-and-winner is a
function from the key's value to `Option String`; the first key whose
value wins ends the loop, absence of a winner yields the empty string. -/
def probeFirst (f : Json → Option String) : List String → List (String × Json) → String
  | [], _ => ""
  | k :: ks, kvs =>
    match lookupJ kvs k with
    | some v =>
      (match f v with
       | some r => r
       | none => probeFirst f ks kvs)
    | none => probeFirst f ks kvs

/-- Name condition of both `row_from_app` variants (scipt.py lines 66-67
and 201-202): `isinstance(value, str) and value.strip()` wins with the
whitespace-collapsed value. -/
def nameCond : Json → Option String
  | .str s => if pyStrip s = "" then none else some (normalizeWs s)
  | _ => none

/-- Id condition of scipt.py's first `row_from_app` (lines 73-74):
`app[k] is not None` wins with `str(app[k])`, whatever its type. -/
def idCondNonNull : Json → Option String
  | .null => none
  | v => some (pyStr v)

/-- Id condition of scipt.py's second `row_from_app` (lines 207-208):
`isinstance(app[k], (str, int))` wins with `str(app[k])`; a JSON boolean
passes the check because Python's `bool` is a subclass of `int`. -/
def idCondStrInt : Json → Option String
  | .str s => some s
  | .num n => some (pyStr (.num n))
  | .bool b => some (pyStr (.bool b))
  | _ => none

/-- Name keys of scipt.py's first `row_from_app` (line 65). -/
def nameKeysV1 : List String :=
  ["app_name", "name", "application_name", "display_name", "label"]

/-- Name keys of scipt.py's second `row_from_app` (line 200): `name`
first, and the extra key `application`. -/
def nameKeysV2 : List String :=
  ["name", "app_name", "application", "application_name", "display_name", "label"]

/-- Id keys of both `row_from_app` variants (lines 72 and 206). -/
def idKeys : List String := ["id", "app_id", "uuid", "guid"]

/-- Python `sorted(<set of strings>)`: the ascending list of the distinct
members.  `dedup` keeps one copy of each member and `insertionSort` orders
them lexicographically by code points (the order on the character list),
which is Python's string order. -/
def sortedSet (xs : List String) : List String :=
  List.insertionSort (fun a b => a.data ≤ b.data) xs.dedup

instance : IsTotal String (fun a b => a.data ≤ b.data) :=
  ⟨fun a b => le_total a.data b.data⟩

instance : IsTrans String (fun a b => a.data ≤ b.data) :=
  ⟨fun a b c hab hbc => le_trans hab hbc⟩

/-- The hosts list of a projected row: Python
`sorted({normalize(h) for h in <harvest> if h})` (scipt.py lines 77 and
211-212). -/
def rowHosts (harvested : List String) : List String :=
  sortedSet ((harvested.filter (fun h => h ≠ "")).map normalizeWs)

/-- One projected row: name, hosts (as the sorted list the source joins
with a comma), id. -/
structure Row where
  name : String
  hosts : List String
  app_id : String
deriving DecidableEq

/-- Source `row_from_app`, first variant (scipt.py lines 62-82), on a
mapping record. -/
def row_from_app_v1 (kvs : List (String × Json)) : Row :=
  { name := probeFirst nameCond nameKeysV1 kvs
    hosts := rowHosts (harvest_hosts (.obj kvs))
    app_id := probeFirst idCondNonNull idKeys kvs }

/-- Source `row_from_app`, second variant (scipt.py lines 193-218), on a
mapping record (`name or ""` and `app_id or ""` coincide with defaulting
to the empty string). -/
def row_from_app_v2 (kvs : List (String × Json)) : Row :=
  { name := probeFirst nameCond nameKeysV2 kvs
    hosts := rowHosts (to_host_set (.obj kvs))
    app_id := probeFirst idCondStrInt idKeys kvs }

/-- Python runtime errors surfaced by the operations these scripts use on
untrusted shapes. -/
inductive PyErr where
  | attributeError : PyErr
  | typeError : PyErr
  | keyError : PyErr
  | indexError : PyErr
deriving DecidableEq

/-- One row of extract.py's `extract_apps` (lines 46-49). -/
structure RowXY where
  app_name : String
  host : String
deriving DecidableEq

/-- Python `obj.get(k, "")` on a mapping. -/
def pyGetStrD (kvs : List (String × Json)) (k : String) : Json :=
  (lookupJ kvs k).getD (.str "")

/-- The body of extract.py's row loop (lines 38-49) for one mapping
record: `dests[0].get(...)` raises AttributeError when the first element
of a non-empty `destinations` list is not a mapping. -/
def rowXY (o : List (String × Json)) : Except PyErr RowXY := do
  let app_name := pyGetStrD o "app_name"
  let host0 := pyGetStrD o "host"
  let host ←
    if jsonFalsy host0 then
      match lookupJ o "destinations" with
      | some (.arr (d0 :: _)) =>
        (match d0 with
         | .obj d0o =>
           let h1 := pyGetStrD d0o "host"
           pure (if jsonFalsy h1 then pyGetStrD d0o "fqdn" else h1)
         | _ => throw .attributeError)
      | _ => pure host0
    else pure host0
  pure { app_name := pyStr app_name, host := pyStr host }

/-- The `for obj in items` loop of extract.py's `extract_apps` (lines
35-49): non-mapping items are skipped; a raised error aborts the whole
call. -/
def rowsXY : List Json → Except PyErr (List RowXY)
  | [] => pure []
  | .obj o :: rest => do
    let r ← rowXY o
    let rs ← rowsXY rest
    pure (r :: rs)
  | _ :: rest => rowsXY rest

/-- Source `extract_apps` of extract.py (lines 7-50): locate the items,
then build the rows. -/
def extract_apps_xy (data : Json) : Except PyErr (List RowXY) :=
  rowsXY (locateXY data)

/-- The cursor walk of `fetch_all_pages` (visible at scipt.py lines
114-115 as the `nxt = None; break` arm): index into mappings along the
configured path, absent key or non-mapping yields None. -/
def walkPath : Json → List String → Option Json
  | j, [] => some j
  | j, p :: ps =>
    match j with
    | .obj kvs =>
      (match lookupJ kvs p with
       | some v => walkPath v ps
       | none => none)
    | _ => none

/-- The loop-exit test of `fetch_all_pages` (scipt.py lines 116-118):
`if not nxt: break`, with `nxt = None` when the walk failed. -/
def cursorAbsent (page : Json) (ps : List String) : Bool :=
  match walkPath page ps with
  | none => true
  | some v => jsonFalsy v

/-- Modelled from the spec: the body of `fetch_all_pages` is missing from
src/scipt.py - only its tail (lines 114-121: the walk-failure arm, the
`if not nxt: break` exit and `cursor = str(nxt)`) survives, so the loop
head is reconstructed from spec sections 4.1-4.2: fetch a page with the
current cursor (none on the first call), append it, extract the next
cursor along the configured path, stop when it is absent or falsy, else
continue with `str` of it.  `f` abstracts one fetch as a function of the
cursor parameter sent; `fuel` bounds the recursion (the Python loop is
unbounded by design, per the spec). -/
def fetchPages (f : Option String → Json) (path : Option (List String)) :
    Nat → Option String → List Json
  | 0, _ => []
  | fuel + 1, cur =>
    let page := f cur
    match path with
    | none => [page]
    | some ps =>
      match walkPath page ps with
      | none => [page]
      | some nxt =>
        if jsonFalsy nxt then [page]
        else page :: fetchPages f path fuel (some (pyStr nxt))

/-- Modelled from the spec: `fetch_all_pages` starts with no cursor. -/
def fetch_all_pages (f : Option String → Json) (path : Option (List String))
    (fuel : Nat) : List Json :=
  fetchPages f path fuel none

/-- A transport-level error carrying the HTTP status and the response
body, as raised for a non-2xx response (scipt.py lines 8-12: the
`requests.HTTPError` from `raise_for_status()` carries the response,
hence its status code and body). -/
structure TransportError where
  status : Nat
  body : String
deriving DecidableEq

/-- One HTTP response as seen by `fetch` (scipt.py lines 6-13): status,
raw body, parsed JSON. -/
structure HttpResponse where
  status : Nat
  body : String
  payload : Json

/-- Model of `requests.Response.raise_for_status()`: raises exactly for client
(4xx) and server (5xx) error statuses. -/
def raise_for_status (r : HttpResponse) : Except TransportError Unit :=
  if 400 ≤ r.status ∧ r.status < 600 then .error ⟨r.status, r.body⟩ else .ok ()

/-- Source `fetch` (scipt.py lines 6-13), over the response the transport
returned: re-raises the HTTP error (after printing it) or returns the
parsed JSON. -/
def fetch (r : HttpResponse) : Except TransportError Json := do
  raise_for_status r
  pure r.payload

/-- Python `v.get(k)` as an operation on an arbitrary value: AttributeError
unless `v` is a mapping (absent key yields None). -/
def pyGetE (v : Json) (k : String) : Except PyErr Json :=
  match v with
  | .obj kvs => .ok ((lookupJ kvs k).getD .null)
  | _ => .error .attributeError

/-- Python `v[k]` with a string key: KeyError on a mapping without the
key, TypeError on non-mappings. -/
def pySubscriptE (v : Json) (k : String) : Except PyErr Json :=
  match v with
  | .obj kvs =>
    (match lookupJ kvs k with
     | some x => .ok x
     | none => .error .keyError)
  | _ => .error .typeError

/-- Python `k in v` for a string `k`: key test on mappings, membership on
sequences, substring test on strings, TypeError otherwise. -/
def pyContainsE (v : Json) (k : String) : Except PyErr Bool :=
  match v with
  | .obj kvs => .ok (lookupJ kvs k).isSome
  | .arr xs => .ok (xs.any (fun x => match x with | .str s => s = k | _ => false))
  | .str s => .ok (if k = "" then true else (s.splitOn k).length ≥ 2)
  | _ => .error .typeError

/-- Python `xs[i]`: IndexError past the end. -/
def listGetE : List Json → Nat → Except PyErr Json
  | [], _ => .error .indexError
  | x :: _, 0 => .ok x
  | _ :: xs, i + 1 => listGetE xs i

/-- Mirror of `extract_items`'s fallback scan (scipt.py lines 27-29) with
the explicit partial subscript `v[0]`, which the source guards by the
truthiness test `v`. -/
def fallbackScanE : List (String × Json) → Except PyErr (List Json)
  | [] => .ok []
  | (_, v) :: rest =>
    match v with
    | .arr xs =>
      if xs.isEmpty then fallbackScanE rest
      else do
        let x0 ← listGetE xs 0
        match x0 with
        | .obj _ => .ok xs
        | _ => fallbackScanE rest
    | _ => fallbackScanE rest

/-- Mirror of `extract_items` (scipt.py lines 15-30) with explicit partial
operations, to settle that it never raises. -/
def extract_itemsE (payload : Json) : Except PyErr (List Json) :=
  match payload with
  | .arr xs => .ok xs
  | .obj kvs =>
    (match firstKeyList containerKeys kvs with
     | some xs => .ok xs
     | none => fallbackScanE kvs)
  | _ => .ok []

mutual
/-- Mirror of the harvest walk with the explicit partial operations the
source uses on mappings (`k in v`, then `v[k]`): the guard makes the
subscript total, which is what the totality claim is about. -/
def hwalkE (lk ck : List String) : Json → Except PyErr (List String)
  | .null => .ok []
  | .bool _ => .ok []
  | .num _ => .ok []
  | .str s => .ok (if pyStrip s = "" then [] else [pyStrip s])
  | .arr xs => hwalkListE lk ck xs
  | .obj kvs => do
    let a ← hwalkKeysE lk ck lk kvs
    let b ← hwalkKeysE lk ck ck kvs
    let c ← hwalkValsE lk ck kvs
    pure (a ++ b ++ c)
termination_by v => (sizeOf v, 0)
decreasing_by
  all_goals apply Prod.Lex.left
  all_goals simp
  all_goals try omega

/-- Mirror of the sequence loop. -/
def hwalkListE (lk ck : List String) : List Json → Except PyErr (List String)
  | [] => .ok []
  | x :: xs => do
    let a ← hwalkE lk ck x
    let b ← hwalkListE lk ck xs
    pure (a ++ b)
termination_by xs => (sizeOf xs, 0)
decreasing_by
  all_goals apply Prod.Lex.left
  all_goals simp
  all_goals try omega

/-- Mirror of the fixed-key loops: `k in v` decides whether to subscript,
so the recursion follows the looked-up value. -/
def hwalkKeysE (lk ck : List String) : List String → List (String × Json) →
    Except PyErr (List String)
  | [], _ => .ok []
  | k :: ks, kvs => do
    let present ← pyContainsE (.obj kvs) k
    let a ←
      (match h : lookupJ kvs k with
       | some v => if present then hwalkE lk ck v else pure []
       | none => pure [])
    let rest ← hwalkKeysE lk ck ks kvs
    pure (a ++ rest)
termination_by ks kvs => (sizeOf kvs, sizeOf ks)
decreasing_by
  · exact Prod.Lex.left _ _ (sizeOf_lookupJ h)
  · exact Prod.Lex.right _ (by simp)

/-- Mirror of the catch-all loop over the mapping's values. -/
def hwalkValsE (lk ck : List String) : List (String × Json) → Except PyErr (List String)
  | [] => .ok []
  | (_, v) :: kvs => do
    let a ← (if isWalkable v then hwalkE lk ck v else pure [])
    let rest ← hwalkValsE lk ck kvs
    pure (a ++ rest)
termination_by kvs => (sizeOf kvs, 0)
decreasing_by
  all_goals apply Prod.Lex.left
  all_goals simp
  all_goals try omega
end

/-- Mirror of `harvest_hosts`. -/
def harvest_hostsE (v : Json) : Except PyErr (List String) :=
  hwalkE leafKeys containerKeysHH v

/-- Mirror of `to_host_set`. -/
def to_host_setE (v : Json) : Except PyErr (List String) :=
  hwalkE leafKeys containerKeysTHS v

/-- Mirror of the name loop of `row_from_app` v1 (scipt.py lines 64-68) on
an arbitrary value: `app.get(k)` raises AttributeError on non-mappings,
and the winning branch re-reads `app[k]` (lines 66-67). -/
def nameLoopE (app : Json) : List String → Except PyErr String
  | [] => .ok ""
  | k :: ks =>
    match pyGetE app k with
    | .error e => .error e
    | .ok v =>
      match v with
      | .str _ =>
        (match pySubscriptE app k with
         | .error e => .error e
         | .ok w =>
           match w with
           | .str s => if pyStrip s = "" then nameLoopE app ks else .ok (normalizeWs s)
           | _ => .error .attributeError)
      | _ => nameLoopE app ks

/-- Mirror of the id loop of `row_from_app` v1 (scipt.py lines 71-74) on
an arbitrary value: `k in app` raises TypeError on unsubscriptable
values. -/
def idLoopE (app : Json) : List String → Except PyErr String
  | [] => .ok ""
  | k :: ks =>
    match pyContainsE app k with
    | .error e => .error e
    | .ok b =>
      if b then
        match pySubscriptE app k with
        | .error e => .error e
        | .ok v =>
          (match v with
           | .null => idLoopE app ks
           | w => .ok (pyStr w))
      else idLoopE app ks

/-- Mirror of `row_from_app` v1 (scipt.py lines 62-82) on an arbitrary
JSON value, with the partial operations explicit. -/
def row_from_app_v1E (app : Json) : Except PyErr Row :=
  match nameLoopE app nameKeysV1 with
  | .error e => .error e
  | .ok name =>
    match idLoopE app idKeys with
    | .error e => .error e
    | .ok app_id =>
      match harvest_hostsE app with
      | .error e => .error e
      | .ok hs => .ok { name := name, hosts := rowHosts hs, app_id := app_id }

/-- The single-page pipeline of scipt.py's `main` (lines 96-106) after the
fetch: locate the items and project every one of them; a non-2xx response
aborts before any row exists. -/
def runExtraction (r : HttpResponse) : Except TransportError (List (Except PyErr Row)) := do
  let payload ← fetch r
  pure ((extract_items payload).map row_from_app_v1E)

theorem pyStripL_idem (cs : List Char) : pyStripL (pyStripL cs) = pyStripL cs := by
  unfold pyStripL
  have h1 : List.dropWhile isSpace (List.rdropWhile isSpace (List.dropWhile isSpace cs))
      = List.rdropWhile isSpace (List.dropWhile isSpace cs) := by
    rcases hr : List.rdropWhile isSpace (List.dropWhile isSpace cs) with _ | ⟨a, r'⟩
    · simp
    · have hpre := List.rdropWhile_prefix (p := isSpace) (l := List.dropWhile isSpace cs)
      rw [hr] at hpre
      obtain ⟨t, ht⟩ := hpre
      have hts : List.dropWhile isSpace cs = a :: (r' ++ t) := by
        rw [← ht]; simp
      have hm : List.dropWhile isSpace (List.dropWhile isSpace cs)
          = List.dropWhile isSpace cs := List.dropWhile_idempotent _ _
      rw [hts] at hm
      have ha : ¬ isSpace a = true := by
        intro hsp
        rw [List.dropWhile_cons_of_pos hsp] at hm
        have hle := (List.dropWhile_sublist (p := isSpace) (l := r' ++ t)).length_le
        have := congrArg List.length hm
        simp at this hle
        omega
      exact List.dropWhile_cons_of_neg ha
  rw [h1, List.rdropWhile_idempotent]

theorem pyStrip_idem (s : String) : pyStrip (pyStrip s) = pyStrip s := by
  simp [pyStrip, pyStripL_idem]

theorem mem_specReachVals_of_lookup {kvs : List (String × Json)} {k : String}
    {v : Json} {s : String} (hl : lookupJ kvs k = some v)
    (hs : s ∈ specReachableStrings v) : s ∈ specReachVals kvs := by
  induction kvs with
  | nil => simp [lookupJ] at hl
  | cons kv rest ih =>
    obtain ⟨k0, v0⟩ := kv
    rw [specReachVals]
    rw [List.mem_append]
    by_cases hk : k0 = k
    · subst hk
      simp [lookupJ] at hl
      subst hl
      exact Or.inl hs
    · simp [lookupJ, hk] at hl
      exact Or.inr (ih hl)

theorem specReach_nonwalkable {v : Json} (h : isWalkable v = false) :
    specReachableStrings v = [] := by
  cases v <;> simp_all [isWalkable, specReachableStrings]

theorem mem_hwalkList_iff_aux (lk ck : List String) :
    ∀ xs : List Json,
      (∀ x ∈ xs, ∀ s, (s ∈ hwalk lk ck x ↔ s ∈ specReachableStrings x)) →
      ∀ s, (s ∈ hwalkList lk ck xs ↔ s ∈ specReachList xs) := by
  intro xs
  induction xs with
  | nil => intro _ s; rw [hwalkList, specReachList]
  | cons x rest ih =>
    intro hall s
    rw [hwalkList, specReachList, List.mem_append, List.mem_append]
    constructor
    · rintro (h | h)
      · exact Or.inl ((hall x (by simp) s).mp h)
      · exact Or.inr ((ih (fun y hy => hall y (List.mem_cons_of_mem _ hy)) s).mp h)
    · rintro (h | h)
      · exact Or.inl ((hall x (by simp) s).mpr h)
      · exact Or.inr ((ih (fun y hy => hall y (List.mem_cons_of_mem _ hy)) s).mpr h)

theorem mem_hwalkVals_iff_aux (lk ck : List String) :
    ∀ kvs : List (String × Json),
      (∀ p ∈ kvs, ∀ s, (s ∈ hwalk lk ck p.2 ↔ s ∈ specReachableStrings p.2)) →
      ∀ s, (s ∈ hwalkVals lk ck kvs ↔ s ∈ specReachVals kvs) := by
  intro kvs
  induction kvs with
  | nil => intro _ s; rw [hwalkVals, specReachVals]
  | cons kv rest ih =>
    intro hall s
    obtain ⟨k0, v0⟩ := kv
    have htail := ih (fun p hp => hall p (List.mem_cons_of_mem _ hp)) s
    have hhead := hall (k0, v0) (by simp) s
    rw [hwalkVals, specReachVals, List.mem_append, List.mem_append]
    by_cases hw : isWalkable v0 = true
    · rw [if_pos hw]
      exact or_congr hhead htail
    · rw [if_neg hw]
      rw [specReach_nonwalkable (by simpa using hw)]
      simp only [List.not_mem_nil, false_or]
      exact htail

theorem mem_hwalkKeys_sub (lk ck : List String) :
    ∀ (ks : List String) (kvs : List (String × Json)),
      (∀ p ∈ kvs, ∀ s, (s ∈ hwalk lk ck p.2 ↔ s ∈ specReachableStrings p.2)) →
      ∀ s, s ∈ hwalkKeys lk ck ks kvs → s ∈ specReachVals kvs := by
  intro ks
  induction ks with
  | nil => intro kvs _ s hs; rw [hwalkKeys] at hs; simp at hs
  | cons k rest ih =>
    intro kvs hall s hs
    rw [hwalkKeys, List.mem_append] at hs
    rcases hs with hs | hs
    · rcases hl : lookupJ kvs k with _ | v
      · rw [hl] at hs; simp at hs
      · rw [hl] at hs
        have hmem := lookupJ_mem hl
        have := (hall (k, v) hmem s).mp hs
        exact mem_specReachVals_of_lookup hl this
    · exact ih kvs hall s hs

theorem sizeOf_json_pos (v : Json) : 0 < sizeOf v := by
  cases v <;> simp

theorem mem_hwalk_iff (lk ck : List String) (v : Json) (s : String) :
    s ∈ hwalk lk ck v ↔ s ∈ specReachableStrings v := by
  suffices H : ∀ (N : Nat) (w : Json), sizeOf w ≤ N → ∀ t : String,
      (t ∈ hwalk lk ck w ↔ t ∈ specReachableStrings w) from H (sizeOf v) v le_rfl s
  intro N
  induction N with
  | zero =>
    intro w hw
    have := sizeOf_json_pos w
    omega
  | succ N ih =>
    intro w hw t
    match w with
    | .null => rw [hwalk, specReachableStrings]
    | .bool b => rw [hwalk, specReachableStrings]
    | .num n => rw [hwalk, specReachableStrings]
    | .str u => rw [hwalk, specReachableStrings]
    | .arr xs =>
      rw [hwalk, specReachableStrings]
      apply mem_hwalkList_iff_aux
      intro x hx u
      apply ih
      have h1 := List.sizeOf_lt_of_mem hx
      have h2 : sizeOf (Json.arr xs) = 1 + sizeOf xs := by simp
      omega
    | .obj kvs =>
      have hvals : ∀ p ∈ kvs, ∀ u : String,
          (u ∈ hwalk lk ck p.2 ↔ u ∈ specReachableStrings p.2) := by
        intro p hp u
        apply ih
        have h1 := List.sizeOf_lt_of_mem hp
        have h2 : sizeOf (Json.obj kvs) = 1 + sizeOf kvs := by simp
        have h3 : sizeOf p = 1 + sizeOf p.1 + sizeOf p.2 := by
          obtain ⟨a, b⟩ := p; simp
        omega
      rw [hwalk, specReachableStrings]
      rw [List.mem_append, List.mem_append]
      constructor
      · rintro ((h | h) | h)
        · exact mem_hwalkKeys_sub lk ck lk kvs hvals t h
        · exact mem_hwalkKeys_sub lk ck ck kvs hvals t h
        · exact (mem_hwalkVals_iff_aux lk ck kvs hvals t).mp h
      · intro h
        exact Or.inr ((mem_hwalkVals_iff_aux lk ck kvs hvals t).mpr h)

theorem mem_specReachList_exists {xs : List Json} {s : String}
    (h : s ∈ specReachList xs) : ∃ x ∈ xs, s ∈ specReachableStrings x := by
  induction xs with
  | nil => rw [specReachList] at h; simp at h
  | cons x rest ih =>
    rw [specReachList, List.mem_append] at h
    rcases h with h | h
    · exact ⟨x, by simp, h⟩
    · obtain ⟨y, hy, hs⟩ := ih h
      exact ⟨y, List.mem_cons_of_mem _ hy, hs⟩

theorem mem_specReachVals_exists {kvs : List (String × Json)} {s : String}
    (h : s ∈ specReachVals kvs) : ∃ p ∈ kvs, s ∈ specReachableStrings p.2 := by
  induction kvs with
  | nil => rw [specReachVals] at h; simp at h
  | cons kv rest ih =>
    obtain ⟨k0, v0⟩ := kv
    rw [specReachVals, List.mem_append] at h
    rcases h with h | h
    · exact ⟨(k0, v0), by simp, h⟩
    · obtain ⟨p, hp, hs⟩ := ih h
      exact ⟨p, List.mem_cons_of_mem _ hp, hs⟩

theorem specReach_mem_stripped (v : Json) (s : String)
    (hs : s ∈ specReachableStrings v) : pyStrip s = s ∧ s ≠ "" := by
  revert hs
  suffices H : ∀ (N : Nat) (w : Json), sizeOf w ≤ N → ∀ t : String,
      t ∈ specReachableStrings w → pyStrip t = t ∧ t ≠ "" from H (sizeOf v) v le_rfl s
  intro N
  induction N with
  | zero =>
    intro w hw
    have := sizeOf_json_pos w
    omega
  | succ N ih =>
    intro w hw t ht
    match w with
    | .null => rw [specReachableStrings] at ht; simp at ht
    | .bool b => rw [specReachableStrings] at ht; simp at ht
    | .num n => rw [specReachableStrings] at ht; simp at ht
    | .str u =>
      rw [specReachableStrings] at ht
      by_cases hu : pyStrip u = ""
      · rw [if_pos hu] at ht; simp at ht
      · rw [if_neg hu] at ht
        simp at ht
        subst ht
        exact ⟨pyStrip_idem u, hu⟩
    | .arr xs =>
      rw [specReachableStrings] at ht
      obtain ⟨x, hx, hmem⟩ := mem_specReachList_exists ht
      refine ih x ?_ t hmem
      have h1 := List.sizeOf_lt_of_mem hx
      have h2 : sizeOf (Json.arr xs) = 1 + sizeOf xs := by simp
      omega
    | .obj kvs =>
      rw [specReachableStrings] at ht
      obtain ⟨p, hp, hmem⟩ := mem_specReachVals_exists ht
      refine ih p.2 ?_ t hmem
      have h1 := List.sizeOf_lt_of_mem hp
      have h2 : sizeOf (Json.obj kvs) = 1 + sizeOf kvs := by simp
      have h3 : sizeOf p = 1 + sizeOf p.1 + sizeOf p.2 := by
        obtain ⟨a, b⟩ := p; simp
      omega

/-- C10: for every JSON value, the harvesters' result is, as a set,
exactly the set of stripped non-whitespace-only strings reachable by
descending into sequence elements and mapping values; the ordered
leaf-ish/container-ish key passes have no observable effect on the set,
since both harvesters (whose container-key lists differ) agree with the
order-free reachability description. -/
theorem harvest_eq_reachable (v : Json) (s : String) :
    (s ∈ harvest_hosts v ↔ s ∈ specReachableStrings v) ∧
    (s ∈ to_host_set v ↔ s ∈ specReachableStrings v) :=
  ⟨mem_hwalk_iff leafKeys containerKeysHH v s,
   mem_hwalk_iff leafKeys containerKeysTHS v s⟩

/-- C4 counterexample: the claim says every string the harvester adds is
whitespace-collapsed at the point of addition, but `walk` only strips the
ends (scipt.py line 43), so a harvested string can keep an internal
whitespace run: the record value "a  b" is added verbatim and differs from
its collapsed form "a b". -/
theorem harvest_adds_uncollapsed :
    "a  b" ∈ harvest_hosts (Json.obj [("host", Json.str "a  b")]) ∧
    normalizeWs "a  b" = "a b" ∧ "a  b" ≠ "a b" := by
  refine ⟨?_, by decide, by decide⟩
  simp [harvest_hosts, hwalk, hwalkKeys, hwalkVals, hwalkList, leafKeys,
    containerKeysHH, lookupJ, isWalkable]
  decide

/-- C4 (amended): every string either harvester adds is non-empty and
end-trimmed at the point of addition (`v.strip()`), and empty or
whitespace-only strings are never added; internal whitespace runs are
collapsed only later, during row projection. -/
theorem harvest_mem_stripped (v : Json) (s : String) :
    (s ∈ harvest_hosts v → pyStrip s = s ∧ s ≠ "") ∧
    (s ∈ to_host_set v → pyStrip s = s ∧ s ≠ "") := by
  constructor
  · intro h
    exact specReach_mem_stripped v s ((mem_hwalk_iff _ _ v s).mp h)
  · intro h
    exact specReach_mem_stripped v s ((mem_hwalk_iff _ _ v s).mp h)

/-- Witness for the amended C4 theorem at a concrete record. -/
theorem harvest_mem_stripped_witness :
    pyStrip "h" = "h" ∧ "h" ≠ "" := by
  apply (harvest_mem_stripped (Json.obj [("host", Json.str " h ")]) "h").1
  simp [harvest_hosts, hwalk, hwalkKeys, hwalkVals, hwalkList, leafKeys,
    containerKeysHH, lookupJ, isWalkable]
  decide

theorem string_data_inj {a b : String} (h : a.data = b.data) : a = b := by
  cases a; cases b; exact congrArg String.mk h

theorem sortedSet_pairwise_lt (xs : List String) :
    List.Pairwise (fun a b : String => a.data < b.data) (sortedSet xs) := by
  have hsorted : List.Sorted (fun a b : String => a.data ≤ b.data) (sortedSet xs) :=
    List.sorted_insertionSort (fun a b => a.data ≤ b.data) xs.dedup
  have hnodup : (sortedSet xs).Nodup :=
    ((List.perm_insertionSort (fun a b : String => a.data ≤ b.data) xs.dedup).nodup_iff).mpr
      (List.nodup_dedup xs)
  have hand := List.Pairwise.and hsorted hnodup
  exact hand.imp (fun hab => lt_of_le_of_ne hab.1 (fun hd => hab.2 (string_data_inj hd)))

/-- C7: for every record, the hosts list of the projected row (either
variant) is strictly ascending in code-point order - hence duplicate-free
and sorted ascending case-sensitively, whatever order the harvest visited
keys in - and deduplication is exact-string, so `Host.com` and `host.com`
both survive (uppercase sorting first). -/
theorem row_hosts_sorted_nodup :
    (∀ kvs : List (String × Json),
      List.Pairwise (fun a b : String => a.data < b.data) (row_from_app_v1 kvs).hosts ∧
      List.Pairwise (fun a b : String => a.data < b.data) (row_from_app_v2 kvs).hosts) ∧
    (row_from_app_v1 [("a", Json.str "Host.com"), ("b", Json.str "host.com")]).hosts
      = ["Host.com", "host.com"] := by
  constructor
  · intro kvs
    exact ⟨sortedSet_pairwise_lt _, sortedSet_pairwise_lt _⟩
  · show rowHosts (harvest_hosts (Json.obj [("a", Json.str "Host.com"), ("b", Json.str "host.com")]))
      = ["Host.com", "host.com"]
    have hh : harvest_hosts (Json.obj [("a", Json.str "Host.com"), ("b", Json.str "host.com")])
        = ["Host.com", "host.com"] := by
      simp [harvest_hosts, hwalk, hwalkKeys, hwalkVals, hwalkList, leafKeys,
        containerKeysHH, lookupJ, isWalkable]
      decide
    rw [hh]
    decide

/-- Claim-side reading of C2: the mapping elements of a sequence, in
order. -/
def specMapElems (xs : List Json) : List Json :=
  xs.filter fun x => match x with | .obj _ => true | _ => false

/-- C2 counterexample: the claim says a locator given a top-level sequence
drops non-mapping elements, but `extract_items` returns the sequence
unchanged (scipt.py lines 19-20), so a lone number survives where the
claim predicts an empty record list. -/
theorem extract_items_keeps_nonmappings :
    extract_items (Json.arr [Json.num 1]) = [Json.num 1] ∧
    specMapElems [Json.num 1] = [] ∧
    ([Json.num 1] : List Json) ≠ [] := by
  refine ⟨rfl, rfl, by simp⟩

/-- C2 (amended): both scipt.py locators return a top-level sequence
unchanged, in order, non-mapping elements included; only extract.py drops
non-mapping elements, and it does so in its row-building loop, not in the
locating step. -/
theorem locators_keep_sequences :
    (∀ xs : List Json, extract_items (Json.arr xs) = xs) ∧
    (∀ xs : List Json, extract_apps [Json.arr xs] = xs) ∧
    (extract_apps_xy (Json.arr [Json.num 1, Json.obj [("app_name", Json.str "x")]])
       = .ok [{ app_name := "x", host := "" }]) := by
  refine ⟨fun xs => rfl, fun xs => by simp [extract_apps, locatePage], rfl⟩

/-- Does a value qualify for the scipt.py fallback scan: a non-empty
sequence whose first element is a mapping. -/
def isSeqOfMaps : Json → Bool
  | .arr (.obj _ :: _) => true
  | _ => false

/-- Claim-side reading of C3's fallback rule: scan the mapping's values in
natural order and return the first one that is a non-empty sequence whose
first element is a mapping. -/
def specFallbackScan (kvs : List (String × Json)) : Option (List Json) :=
  ((kvs.map Prod.snd).find? isSeqOfMaps).map fun v =>
    match v with
    | .arr xs => xs
    | _ => []

theorem firstListOfDicts_eq_spec (kvs : List (String × Json)) :
    firstListOfDicts kvs = specFallbackScan kvs := by
  induction kvs with
  | nil => rfl
  | cons kv rest ih =>
    obtain ⟨k0, v0⟩ := kv
    by_cases hv : isSeqOfMaps v0 = true
    · rcases v0 with _ | b | n | s | xs | os <;> simp [isSeqOfMaps] at hv
      rcases xs with _ | ⟨x, xs'⟩
      · simp [isSeqOfMaps] at hv
      rcases x with _ | b | n | s | ys | os <;> simp [isSeqOfMaps] at hv
      rw [firstListOfDicts]
      unfold specFallbackScan
      rw [List.map_cons,
        List.find?_cons_of_pos _ (show isSeqOfMaps (Json.arr (Json.obj os :: xs')) = true from rfl)]
      rfl
    · have hspec : specFallbackScan ((k0, v0) :: rest) = specFallbackScan rest := by
        unfold specFallbackScan
        rw [List.map_cons, List.find?_cons_of_neg _ hv]
      rw [hspec, ← ih]
      rcases v0 with _ | b | n | s | xs | os
      · rfl
      · rfl
      · rfl
      · rfl
      · rcases xs with _ | ⟨x, xs'⟩
        · rfl
        · rcases x with _ | b | n | s | ys | os
          · rfl
          · rfl
          · rfl
          · rfl
          · rfl
          · exfalso; exact hv rfl
      · rfl

/-- Claim-side reading of extract.py's actual fallback (amended C3): the
concatenation of every sequence-valued entry of the mapping, in natural
order. -/
def specAllListVals (kvs : List (String × Json)) : List Json :=
  List.flatten (kvs.map (fun kv => match kv.2 with | .arr xs => xs | _ => []))

theorem foldr_lists_eq_specAllListVals (kvs : List (String × Json)) :
    kvs.foldr (fun kv acc =>
      (match kv.2 with
       | Json.arr xs => xs
       | _ => []) ++ acc) [] = specAllListVals kvs := by
  induction kvs with
  | nil => rfl
  | cons kv rest ih =>
    rw [List.foldr_cons, ih]
    unfold specAllListVals
    rw [List.map_cons]
    simp

/-- Record list with two qualifying fallback values, used to separate the
scipt.py fallback (first match only) from the extract.py fallback
(concatenation). -/
def exC3 : List (String × Json) :=
  [("a", Json.arr [Json.obj [("app_name", Json.str "A")]]),
   ("b", Json.arr [Json.obj [("app_name", Json.str "B")]])]

/-- C3 counterexample: on a mapping with no well-known container key and
two values that are non-empty lists of mappings, the claim says the
locator returns only the first such value, but extract.py's fallback
(lines 26-30) extends over every list value: its rows come from both
lists, one more row than the claimed rule yields. -/
theorem xy_fallback_concats :
    extract_apps_xy (Json.obj exC3)
      = .ok [{ app_name := "A", host := "" }, { app_name := "B", host := "" }] ∧
    specFallbackScan exC3 = some [Json.obj [("app_name", Json.str "A")]] ∧
    rowsXY ((specFallbackScan exC3).getD []) = .ok [{ app_name := "A", host := "" }] ∧
    (Except.ok [({ app_name := "A", host := "" } : RowXY)] : Except PyErr (List RowXY))
      ≠ .ok [{ app_name := "A", host := "" }, { app_name := "B", host := "" }] := by
  refine ⟨rfl, rfl, rfl, by simp⟩

/-- C3 (amended): for a mapping page in which no well-known container key
has a sequence value, the scipt.py locators (extract_items and the page
step of extract_apps) return the first value that is a non-empty sequence
whose first element is a mapping (empty if none); extract.py's fallback
instead returns the concatenation of every sequence value. -/
theorem fallback_scan_behaviour :
    (∀ kvs : List (String × Json), firstKeyList containerKeys kvs = none →
        extract_items (Json.obj kvs) = (specFallbackScan kvs).getD [] ∧
        extract_apps [Json.obj kvs] = (specFallbackScan kvs).getD []) ∧
    (∀ kvs : List (String × Json), firstKeyList containerKeysXY kvs = none →
        locateXY (Json.obj kvs) = specAllListVals kvs) := by
  constructor
  · intro kvs h
    constructor
    · rw [extract_items, h, firstListOfDicts_eq_spec]
    · show (locatePage (Json.obj kvs)).getD [] ++ [] = (specFallbackScan kvs).getD []
      rw [locatePage, h, firstListOfDicts_eq_spec, List.append_nil]
  · intro kvs h
    rw [locateXY, h]
    exact foldr_lists_eq_specAllListVals kvs

/-- Witness for the amended C3 theorem at a concrete mapping. -/
theorem fallback_scan_behaviour_witness :
    extract_items (Json.obj exC3) = (specFallbackScan exC3).getD [] ∧
    extract_apps [Json.obj exC3] = (specFallbackScan exC3).getD [] ∧
    locateXY (Json.obj exC3) = specAllListVals exC3 :=
  ⟨(fallback_scan_behaviour.1 exC3 rfl).1,
   (fallback_scan_behaviour.1 exC3 rfl).2,
   fallback_scan_behaviour.2 exC3 rfl⟩

/-- Claim-side reading of the probe loops (C5, C6): the first key whose
value wins, read off the filtered key list; absence yields the empty
string. -/
def specProbe (f : Json → Option String) (ks : List String)
    (kvs : List (String × Json)) : String :=
  (ks.filterMap (fun k => (lookupJ kvs k).bind f)).headD ""

theorem probeFirst_eq_specProbe (f : Json → Option String) :
    ∀ (ks : List String) (kvs : List (String × Json)),
      probeFirst f ks kvs = specProbe f ks kvs := by
  intro ks kvs
  induction ks with
  | nil => rfl
  | cons k rest ih =>
    rcases hl : lookupJ kvs k with _ | v
    · simp only [probeFirst, hl, specProbe, List.filterMap_cons, Option.bind]
      exact ih
    · rcases hf : f v with _ | r
      · simp only [probeFirst, hl, hf, specProbe, List.filterMap_cons, Option.bind]
        exact ih
      · simp only [probeFirst, hl, hf, specProbe, List.filterMap_cons, Option.bind]
        rfl

theorem probeFirst_congr {f g : Json → Option String} (hfg : ∀ v, f v = g v) :
    ∀ (ks : List String) (kvs : List (String × Json)),
      probeFirst f ks kvs = probeFirst g ks kvs := by
  intro ks kvs
  induction ks with
  | nil => rfl
  | cons k rest ih =>
    rcases hl : lookupJ kvs k with _ | v
    · simp only [probeFirst, hl]
      exact ih
    · simp only [probeFirst, hl, hfg v]
      rcases g v with _ | r
      · exact ih
      · rfl

/-- Record on which the two name-probe orders disagree. -/
def exC5 : List (String × Json) := [("name", Json.str "B"), ("app_name", Json.str "A")]

/-- C5 counterexample: the claim fixes the probe order app_name, name,
application_name, display_name, label, which predicts the name "A" for a
record carrying both `name` and `app_name`; scipt.py's second
`row_from_app` (line 200) probes `name` first and yields "B". -/
theorem name_order_v2_differs :
    (row_from_app_v2 exC5).name = "B" ∧
    specProbe nameCond nameKeysV1 exC5 = "A" ∧
    ("B" : String) ≠ "A" := by
  refine ⟨by decide, by decide, by decide⟩

/-- C5 (amended): the first `row_from_app` probes app_name, name,
application_name, display_name, label as claimed; the second probes name,
app_name, application, application_name, display_name, label.  In both,
the first key present with a non-empty string value wins, the value is
whitespace-collapse normalized, and absence yields the empty string. -/
theorem name_resolution_orders (kvs : List (String × Json)) :
    (row_from_app_v1 kvs).name = specProbe nameCond nameKeysV1 kvs ∧
    (row_from_app_v2 kvs).name = specProbe nameCond nameKeysV2 kvs :=
  ⟨probeFirst_eq_specProbe nameCond nameKeysV1 kvs,
   probeFirst_eq_specProbe nameCond nameKeysV2 kvs⟩

/-- Python `isinstance(v, (str, int))` on a JSON value (`bool` is a
subclass of `int`). -/
def isStrOrInt : Json → Bool
  | .str _ => true
  | .num _ => true
  | .bool _ => true
  | _ => false

/-- Claim-side id condition (C6): present, non-null, string or integer,
coerced to a string. -/
def specIdCond : Json → Option String
  | .null => none
  | v => if isStrOrInt v then some (pyStr v) else none

/-- Amended-claim id condition for the first variant: any present non-null
value, coerced with `str`. -/
def specIdAnyNonNull : Json → Option String
  | .null => none
  | v => some (pyStr v)

theorem idCondStrInt_eq_spec (v : Json) : idCondStrInt v = specIdCond v := by
  cases v <;> rfl

theorem idCondNonNull_eq_spec (v : Json) : idCondNonNull v = specIdAnyNonNull v := by
  cases v <;> rfl

/-- Record on which the two id conditions disagree. -/
def exC6 : List (String × Json) := [("id", Json.arr []), ("app_id", Json.str "X")]

/-- C6 counterexample: the claim says only a non-null string-or-integer
value wins, which predicts skipping an empty-list `id` and taking
`app_id = "X"`; scipt.py's first `row_from_app` (lines 73-74) accepts any
non-null value and yields `str([]) = "[]"`. -/
theorem id_v1_takes_any_nonnull :
    (row_from_app_v1 exC6).app_id = "[]" ∧
    specProbe specIdCond idKeys exC6 = "X" ∧
    ("[]" : String) ≠ "X" := by
  refine ⟨by decide, by decide, by decide⟩

/-- C6 (amended): the second `row_from_app` resolves the id exactly as
claimed (first key whose value is a string or integer - bool included -
coerced to a string, else empty); the first variant instead takes the
first key present with any non-null value, coerced with `str`. -/
theorem id_resolution_conditions (kvs : List (String × Json)) :
    (row_from_app_v2 kvs).app_id = specProbe specIdCond idKeys kvs ∧
    (row_from_app_v1 kvs).app_id = specProbe specIdAnyNonNull idKeys kvs := by
  constructor
  · show probeFirst idCondStrInt idKeys kvs = _
    rw [probeFirst_congr idCondStrInt_eq_spec, probeFirst_eq_specProbe]
  · show probeFirst idCondNonNull idKeys kvs = _
    rw [probeFirst_congr idCondNonNull_eq_spec, probeFirst_eq_specProbe]

/-- C8: the pagination loop terminates exactly on cursor exhaustion - for
any fetcher and cursor path such that the first two pages yield non-falsy
cursors and the third page's cursor path resolves to an absent or empty
value, the loop fetches exactly the three pages (threading each extracted
cursor into the next fetch) and stops: 3 fetches, not 4, for any
sufficient fuel bound on the model's unbounded loop. -/
theorem fetch_all_pages_three (f : Option String → Json) (ps : List String)
    (n1 n2 : Json) (fuel : Nat)
    (h1 : walkPath (f none) ps = some n1) (h1f : jsonFalsy n1 = false)
    (h2 : walkPath (f (some (pyStr n1))) ps = some n2) (h2f : jsonFalsy n2 = false)
    (h3 : cursorAbsent (f (some (pyStr n2))) ps = true)
    (hfuel : 3 ≤ fuel) :
    fetch_all_pages f (some ps) fuel =
      [f none, f (some (pyStr n1)), f (some (pyStr n2))] ∧
    (fetch_all_pages f (some ps) fuel).length = 3 := by
  obtain ⟨m, rfl⟩ : ∃ m, fuel = m + 3 := ⟨fuel - 3, by omega⟩
  have hmain : fetch_all_pages f (some ps) (m + 3) =
      [f none, f (some (pyStr n1)), f (some (pyStr n2))] := by
    unfold cursorAbsent at h3
    rcases hw : walkPath (f (some (pyStr n2))) ps with _ | v
    · simp [fetch_all_pages, fetchPages, h1, h2, hw, h1f, h2f]
    · rw [hw] at h3
      have h3v : jsonFalsy v = true := h3
      simp [fetch_all_pages, fetchPages, h1, h2, hw, h1f, h2f, h3v]
  exact ⟨hmain, by rw [hmain]; rfl⟩

/-- First fetched page of the pagination witness. -/
def exP1 : Json := Json.obj [("meta", Json.obj [("next", Json.str "c1")])]

/-- Second fetched page of the pagination witness. -/
def exP2 : Json := Json.obj [("meta", Json.obj [("next", Json.str "c2")])]

/-- Third fetched page of the pagination witness: its cursor path resolves
to the empty string. -/
def exP3 : Json := Json.obj [("meta", Json.obj [("next", Json.str "")])]

/-- Fetch oracle of the pagination witness, keyed by the cursor sent. -/
def exF : Option String → Json := fun c =>
  if c = some "c1" then exP2 else if c = some "c2" then exP3 else exP1

/-- Witness for the pagination theorem at a concrete three-page run. -/
theorem fetch_all_pages_three_witness :
    fetch_all_pages exF (some ["meta", "next"]) 5 = [exP1, exP2, exP3] ∧
    (fetch_all_pages exF (some ["meta", "next"]) 5).length = 3 := by
  have h := fetch_all_pages_three exF ["meta", "next"] (Json.str "c1") (Json.str "c2") 5
    (by rfl) (by decide) (by rfl) (by decide) (by decide) (by omega)
  simpa [exF] using h

/-- C9: a fetch whose HTTP status is an error status (400-599; HTTP
statuses are three digits) raises a transport error carrying the status
and the response body, and the whole extraction aborts with that error
before any row is produced. -/
theorem fetch_error_aborts (r : HttpResponse) (h4 : 400 ≤ r.status) (h6 : r.status < 600) :
    fetch r = .error ⟨r.status, r.body⟩ ∧
    runExtraction r = .error ⟨r.status, r.body⟩ := by
  have hf : fetch r = .error ⟨r.status, r.body⟩ := by
    unfold fetch raise_for_status
    rw [if_pos ⟨h4, h6⟩]
    rfl
  refine ⟨hf, ?_⟩
  unfold runExtraction
  rw [hf]
  rfl

/-- Witness for the fetch-abort theorem: an HTTP 500 on the first fetch
yields the transport error and zero rows. -/
theorem fetch_error_aborts_witness :
    fetch ⟨500, "boom", Json.null⟩ = .error ⟨500, "boom"⟩ ∧
    runExtraction ⟨500, "boom", Json.null⟩ = .error ⟨500, "boom"⟩ :=
  fetch_error_aborts ⟨500, "boom", Json.null⟩ (by decide) (by decide)

theorem fallbackScanE_ok (kvs : List (String × Json)) :
    fallbackScanE kvs = .ok ((firstListOfDicts kvs).getD []) := by
  induction kvs with
  | nil => rfl
  | cons kv rest ih =>
    obtain ⟨k0, v0⟩ := kv
    rcases v0 with _ | b | n | s | xs | os
    · exact ih
    · exact ih
    · exact ih
    · exact ih
    · rcases xs with _ | ⟨x, xs'⟩
      · exact ih
      · rcases x with _ | b | n | s | ys | os
        · exact ih
        · exact ih
        · exact ih
        · exact ih
        · exact ih
        · rfl
    · exact ih

theorem extract_itemsE_ok (v : Json) : extract_itemsE v = .ok (extract_items v) := by
  rcases v with _ | b | n | s | xs | kvs
  · rfl
  · rfl
  · rfl
  · rfl
  · rfl
  · show extract_itemsE (Json.obj kvs) = .ok (extract_items (Json.obj kvs))
    rw [extract_itemsE, extract_items]
    rcases hk : firstKeyList containerKeys kvs with _ | xs
    · exact fallbackScanE_ok kvs
    · rfl

theorem hwalkListE_ok_aux (lk ck : List String) (xs : List Json)
    (hall : ∀ x ∈ xs, hwalkE lk ck x = .ok (hwalk lk ck x)) :
    hwalkListE lk ck xs = .ok (hwalkList lk ck xs) := by
  induction xs with
  | nil => rw [hwalkListE, hwalkList]
  | cons x rest ih =>
    rw [hwalkListE, hwalkList]
    rw [hall x (by simp), ih (fun y hy => hall y (List.mem_cons_of_mem _ hy))]
    rfl

theorem hwalkValsE_ok_aux (lk ck : List String) (kvs : List (String × Json))
    (hall : ∀ p ∈ kvs, hwalkE lk ck p.2 = .ok (hwalk lk ck p.2)) :
    hwalkValsE lk ck kvs = .ok (hwalkVals lk ck kvs) := by
  induction kvs with
  | nil => rw [hwalkValsE, hwalkVals]
  | cons kv rest ih =>
    obtain ⟨k0, v0⟩ := kv
    rw [hwalkValsE, hwalkVals]
    have htail := ih (fun p hp => hall p (List.mem_cons_of_mem _ hp))
    by_cases hw : isWalkable v0 = true
    · rw [if_pos hw, if_pos hw, hall (k0, v0) (by simp), htail]
      rfl
    · rw [if_neg hw, if_neg hw, htail]
      rfl

theorem hwalkKeysE_ok_aux (lk ck : List String) (ks : List String)
    (kvs : List (String × Json))
    (hall : ∀ p ∈ kvs, hwalkE lk ck p.2 = .ok (hwalk lk ck p.2)) :
    hwalkKeysE lk ck ks kvs = .ok (hwalkKeys lk ck ks kvs) := by
  induction ks with
  | nil => rw [hwalkKeysE, hwalkKeys]
  | cons k rest ih =>
    rw [hwalkKeysE, hwalkKeys]
    rcases hl : lookupJ kvs k with _ | v
    · simp only [hl, pyContainsE, Option.isSome]
      rw [ih]
      rfl
    · simp only [hl, pyContainsE, Option.isSome]
      rw [hall (k, v) (lookupJ_mem hl), ih]
      rfl

theorem hwalkE_ok (lk ck : List String) (v : Json) :
    hwalkE lk ck v = .ok (hwalk lk ck v) := by
  suffices H : ∀ (N : Nat) (w : Json), sizeOf w ≤ N →
      hwalkE lk ck w = .ok (hwalk lk ck w) from H (sizeOf v) v le_rfl
  intro N
  induction N with
  | zero =>
    intro w hw
    have := sizeOf_json_pos w
    omega
  | succ N ih =>
    intro w hw
    match w with
    | .null => rw [hwalkE, hwalk]
    | .bool b => rw [hwalkE, hwalk]
    | .num n => rw [hwalkE, hwalk]
    | .str u => rw [hwalkE, hwalk]
    | .arr xs =>
      rw [hwalkE, hwalk]
      exact hwalkListE_ok_aux lk ck xs (fun x hx => ih x (by
        have h1 := List.sizeOf_lt_of_mem hx
        have h2 : sizeOf (Json.arr xs) = 1 + sizeOf xs := by simp
        omega))
    | .obj kvs =>
      have hvals : ∀ p ∈ kvs, hwalkE lk ck p.2 = .ok (hwalk lk ck p.2) := by
        intro p hp
        apply ih
        have h1 := List.sizeOf_lt_of_mem hp
        have h2 : sizeOf (Json.obj kvs) = 1 + sizeOf kvs := by simp
        have h3 : sizeOf p = 1 + sizeOf p.1 + sizeOf p.2 := by
          obtain ⟨a, b⟩ := p; simp
        omega
      rw [hwalkE, hwalk]
      rw [hwalkKeysE_ok_aux lk ck lk kvs hvals, hwalkKeysE_ok_aux lk ck ck kvs hvals,
        hwalkValsE_ok_aux lk ck kvs hvals]
      rfl

theorem harvest_hostsE_ok (v : Json) : harvest_hostsE v = .ok (harvest_hosts v) :=
  hwalkE_ok leafKeys containerKeysHH v

theorem nameLoopE_ok (kvs : List (String × Json)) (ks : List String) :
    nameLoopE (Json.obj kvs) ks = .ok (probeFirst nameCond ks kvs) := by
  induction ks with
  | nil => rfl
  | cons k rest ih =>
    rcases hl : lookupJ kvs k with _ | v
    · simp only [nameLoopE, probeFirst, pyGetE, hl, Option.getD]
      exact ih
    · rcases v with _ | b | n | s | xs | os
      · simp only [nameLoopE, probeFirst, pyGetE, hl, Option.getD, nameCond]
        exact ih
      · simp only [nameLoopE, probeFirst, pyGetE, hl, Option.getD, nameCond]
        exact ih
      · simp only [nameLoopE, probeFirst, pyGetE, hl, Option.getD, nameCond]
        exact ih
      · simp only [nameLoopE, probeFirst, pyGetE, hl, Option.getD, nameCond, pySubscriptE]
        by_cases hs : pyStrip s = ""
        · rw [if_pos hs, if_pos hs]
          exact ih
        · rw [if_neg hs, if_neg hs]
      · simp only [nameLoopE, probeFirst, pyGetE, hl, Option.getD, nameCond]
        exact ih
      · simp only [nameLoopE, probeFirst, pyGetE, hl, Option.getD, nameCond]
        exact ih

theorem idLoopE_ok (kvs : List (String × Json)) (ks : List String) :
    idLoopE (Json.obj kvs) ks = .ok (probeFirst idCondNonNull ks kvs) := by
  induction ks with
  | nil => rfl
  | cons k rest ih =>
    rcases hl : lookupJ kvs k with _ | v
    · simp only [idLoopE, probeFirst, pyContainsE, hl, Option.isSome]
      exact ih
    · rcases v with _ | b | n | s | xs | os
      · simp only [idLoopE, probeFirst, pyContainsE, pySubscriptE, hl, Option.isSome,
          idCondNonNull]
        exact ih
      all_goals simp only [idLoopE, probeFirst, pyContainsE, pySubscriptE, hl,
        Option.isSome, idCondNonNull]
      all_goals rfl

theorem row_from_app_v1E_ok (kvs : List (String × Json)) :
    row_from_app_v1E (Json.obj kvs) = .ok (row_from_app_v1 kvs) := by
  rw [row_from_app_v1E, nameLoopE_ok, idLoopE_ok, harvest_hostsE_ok]
  rfl

/-- C1 counterexample: the claim says the row projector (and the
locate/project pipeline) never raises on any JSON input, but scipt.py's
`row_from_app` calls `app.get(...)` (line 66), which raises AttributeError
on a non-mapping record - and the locators do hand it non-mappings, since
a top-level list is returned unfiltered; extract.py's `extract_apps`
likewise raises AttributeError on `dests[0].get(...)` (line 45) when a
record's `destinations` is a non-empty list starting with a
non-mapping. -/
theorem row_projection_raises :
    row_from_app_v1E (Json.num 3) = .error .attributeError ∧
    extract_apps_xy (Json.obj [("data", Json.arr
        [Json.obj [("destinations", Json.arr [Json.num 5])]])])
      = .error .attributeError := by
  constructor
  · rfl
  · rfl

/-- C1 (amended): the record locator (`extract_items`) and the host
harvester (`harvest_hosts`) are total on every JSON value - their mirrors
with explicit partial operations always return `ok`, with the pure
embedding's value; the row projector (`row_from_app`) is total on every
mapping record but raises on non-mapping records (see the
counterexample), which the locators can emit. -/
theorem schema_ops_totality :
    (∀ v : Json, extract_itemsE v = .ok (extract_items v)) ∧
    (∀ v : Json, harvest_hostsE v = .ok (harvest_hosts v)) ∧
    (∀ v : Json, to_host_setE v = .ok (to_host_set v)) ∧
    (∀ kvs : List (String × Json), row_from_app_v1E (Json.obj kvs) = .ok (row_from_app_v1 kvs)) :=
  ⟨extract_itemsE_ok, harvest_hostsE_ok,
   fun v => hwalkE_ok leafKeys containerKeysTHS v, row_from_app_v1E_ok⟩
